import Mathlib

/-
Verification of app/models.py of the simple-login-app repository:
a shallow embedding of its data model and operations, with theorems
checking the specification claims against it.

Timestamps (the arrow library in the source) are embedded as integers
counting seconds; `arrow.now()` becomes an explicit `now : Int`
argument.  External collaborators (the s3 object store, hashlib md5,
the random generators of app.utils) are passed in as function
arguments, mirroring their role as opaque collaborators.  Python code
that can raise on a null column is embedded as an `Option`-returning
function, `none` standing for the raised `TypeError`.
-/

namespace SimpleLogin

/-- Subscription plans, embedding `PlanEnum` of app/models.py. -/
inductive PlanEnum where
  | free
  | trial
  | monthly
  | yearly
deriving DecidableEq, Repr

/-- A stored file row (`File` of app/models.py): an id and an s3 path. -/
structure SLFile where
  id : Nat
  path : String
deriving DecidableEq, Repr

/-- A user row (`User` of app/models.py); the columns the claims need.
`plan_expiration` is a nullable column, hence `Option`; the
`profile_picture` relationship is `some` exactly when the nullable
foreign key `profile_picture_id` is set. -/
structure User where
  id : Nat
  email : String
  name : String
  plan : PlanEnum
  plan_expiration : Option Int
  profile_picture : Option SLFile
  promo_codes : Option String
deriving DecidableEq, Repr

/-- One day of seconds; `arrow.now().shift(weeks=1)` is `now + 7 * day`. -/
def day : Int := 86400

/-- `User.is_premium` of app/models.py. -/
def User.is_premium (u : User) : Bool :=
  u.plan == PlanEnum.monthly || u.plan == PlanEnum.yearly

/-- `User.should_upgrade` of app/models.py.  `none` embeds the
`TypeError` Python raises when `plan = trial` and `plan_expiration`
is null (the comparison `None < arrow` fails); the `and` of the
source short-circuits, so no comparison happens off the trial plan. -/
def User.should_upgrade (now : Int) (u : User) : Option Bool :=
  if u.plan = PlanEnum.free then some true
  else if u.plan = PlanEnum.trial then
    match u.plan_expiration with
    | none => none
    | some e => if e < now + 7 * day then some true else some false
  else some false

/-- `User.can_create_new_email` of app/models.py.  The count of
`GenEmail` rows of the user and the configured constant
`MAX_NB_EMAIL_FREE_PLAN` (app/config, outside src) are passed in as
arguments `nb_alias` and `max_nb_free`. -/
def User.can_create_new_email (now : Int) (nb_alias max_nb_free : Nat)
    (u : User) : Option Bool :=
  if u.is_premium then some true
  else if u.plan = PlanEnum.trial then
    match u.plan_expiration with
    | none => none
    | some e =>
      if e > now then some true
      else some (decide (nb_alias < max_nb_free))
  else some (decide (nb_alias < max_nb_free))

/-- `User.profile_picture_url` of app/models.py: the stored picture
through the object store when set, else the gravatar URL over the md5
hex digest of the user email.  `s3url` embeds `s3.get_url`, `md5hex`
embeds `hashlib.md5(...).hexdigest()`. -/
def User.profile_picture_url (s3url md5hex : String → String)
    (u : User) : String :=
  match u.profile_picture with
  | some f => s3url f.path
  | none => "https://www.gravatar.com/avatar/" ++ md5hex u.email

/-- Modelled from the spec: the `Scope` enum lives in app/oauth_models.py,
which is not under src/; its three members and their string values are
fixed by the spec glossary and by the docstring of
`ClientUser.get_user_info` in app/models.py. -/
inductive Scope where
  | NAME
  | EMAIL
  | AVATAR_URL
deriving DecidableEq, Repr

/-- The `.value` of each `Scope` member: the key it projects under. -/
def Scope.value : Scope → String
  | .NAME => "name"
  | .EMAIL => "email"
  | .AVATAR_URL => "avatar_url"

/-- Values a projected user-info dict can hold: the id is a number,
`email_verified` a boolean, the avatar is a string or an explicit null. -/
inductive JValue where
  | jnum (n : Nat)
  | jstr (s : String)
  | jbool (b : Bool)
  | jnull
deriving DecidableEq, Repr

/-- A Python dict with string keys, kept in insertion order. -/
abbrev Dict := List (String × JValue)

/-- Assignment `res[k] = v` on a Python dict: overwrite in place when the
key exists, append otherwise. -/
def dinsert (k : String) (v : JValue) : Dict → Dict
  | [] => [(k, v)]
  | (k₀, v₀) :: rest =>
    if k₀ = k then (k, v) :: rest else (k₀, v₀) :: dinsert k v rest

/-- Key lookup on the dict embedding; `none` means the key is absent. -/
def dlookup (k : String) : Dict → Option JValue
  | [] => none
  | (k₀, v) :: rest => if k₀ = k then some v else dlookup k rest

/-- A client row (`Client` of app/models.py); the columns the claims
need.  The `icon` relationship is `some` exactly when the nullable
foreign key `icon_id` is set. -/
structure Client where
  id : Nat
  oauth_client_id : String
  oauth_client_secret : String
  name : String
  user_id : Nat
  icon : Option SLFile
deriving DecidableEq, Repr

/-- `Client.get_scopes` of app/models.py: a fixed full scope list. -/
def Client.get_scopes (_c : Client) : List Scope :=
  [Scope.NAME, Scope.EMAIL, Scope.AVATAR_URL]

/-- `Client.get_icon_url` of app/models.py; `URL` is the configured base
URL constant (app/config, outside src), `s3url` embeds `s3.get_url`. -/
def Client.get_icon_url (s3url : String → String) (URL : String)
    (c : Client) : String :=
  match c.icon with
  | some f => s3url f.path
  | none => URL ++ "/static/default-icon.svg"

/-- A generated-alias row (`GenEmail` of app/models.py). -/
structure GenEmail where
  id : Nat
  user_id : Nat
  email : String
  enabled : Bool
deriving DecidableEq, Repr

/-- A consent-binding row (`ClientUser` of app/models.py) together with
its loaded relationships.  The `gen_email` relationship is `some`
exactly when the nullable foreign key `gen_email_id` is set (null means
the client sees the user original email). -/
structure ClientUser where
  id : Nat
  user : User
  client : Client
  gen_email : Option GenEmail
deriving DecidableEq, Repr

/-- `ClientUser.get_email` of app/models.py. -/
def ClientUser.get_email (cu : ClientUser) : String :=
  match cu.gen_email with
  | some g => g.email
  | none => cu.user.email

/-- The body of the scope loop of `ClientUser.get_user_info`: one
iteration, dispatching on the scope and assigning `res[scope.value]`. -/
def user_info_step (s3url : String → String) (cu : ClientUser)
    (res : Dict) : Scope → Dict
  | .NAME => dinsert Scope.NAME.value (.jstr cu.user.name) res
  | .AVATAR_URL =>
    match cu.user.profile_picture with
    | some f => dinsert Scope.AVATAR_URL.value (.jstr (s3url f.path)) res
    | none => dinsert Scope.AVATAR_URL.value .jnull res
  | .EMAIL =>
    match cu.gen_email with
    | some g => dinsert Scope.EMAIL.value (.jstr g.email) res
    | none => dinsert Scope.EMAIL.value (.jstr cu.user.email) res

/-- `ClientUser.get_user_info` of app/models.py, factored over the scope
list the loop iterates (`self.client.get_scopes()` in the source): the
initial dict holds `id`, `client` and `email_verified`, and the loop
folds `user_info_step` over the granted scopes. -/
def get_user_info_scopes (s3url : String → String) (cu : ClientUser)
    (scopes : List Scope) : Dict :=
  scopes.foldl (user_info_step s3url cu)
    [("id", .jnum cu.id), ("client", .jstr cu.client.name),
     ("email_verified", .jbool true)]

/-- `ClientUser.get_user_info` of app/models.py, applied to the scope
list the source actually passes. -/
def ClientUser.get_user_info (s3url : String → String)
    (cu : ClientUser) : Dict :=
  get_user_info_scopes s3url cu cu.client.get_scopes

/-- The canonical value the scope loop assigns for a scope: each branch
of `user_info_step` writes this value under `scope.value`. -/
def scope_val (s3url : String → String) (cu : ClientUser) : Scope → JValue
  | .NAME => .jstr cu.user.name
  | .AVATAR_URL =>
    match cu.user.profile_picture with
    | some f => .jstr (s3url f.path)
    | none => .jnull
  | .EMAIL => .jstr cu.get_email

/-- Python `s.split(",")` on the character list of a string: splitting
the empty string gives one empty piece, a comma starts a new piece. -/
def splitC : List Char → List (List Char)
  | [] => [[]]
  | c :: cs =>
    match splitC cs with
    | [] => [[c]]
    | h :: t => if c = ',' then [] :: h :: t else (c :: h) :: t

/-- Python `",".join(pieces)` on character lists. -/
def joinC : List (List Char) → List Char
  | [] => []
  | [x] => x
  | x :: y :: t => x ++ ',' :: joinC (y :: t)

/-- Python `s.split(",")` lifted to `String`. -/
def pc_split (s : String) : List String :=
  (splitC s.data).map String.mk

/-- Python `",".join(l)` lifted to `String`. -/
def pc_join (l : List String) : String :=
  String.mk (joinC (l.map String.data))

/-- `User.get_promo_codes` of app/models.py: the `not self.promo_codes`
guard is true on a null column and on the empty string. -/
def User.get_promo_codes (u : User) : List String :=
  match u.promo_codes with
  | none => []
  | some s => if s = "" then [] else pc_split s

/-- `User.save_new_promo_code` of app/models.py: append the new code to
the current list and store the comma-join. -/
def User.save_new_promo_code (promo_code : String) (u : User) : User :=
  { u with promo_codes := some (pc_join (u.get_promo_codes ++ [promo_code])) }

/-- `generate_email` of app/models.py, with its effects made explicit:
`taken` embeds the uniqueness authority `GenEmail.get_by(email=...)`,
`words` the successive draws of `random_words()` (app.utils, outside
src), `domain` the configured `EMAIL_DOMAIN`.  The source recurses on a
collision with no retry cap; `fuel` bounds the unfolding of that
recursion and `none` means the source is still recursing after `fuel`
draws starting from draw `i`. -/
def generate_email_fuel (taken : String → Bool) (words : Nat → String)
    (domain : String) : Nat → Nat → Option String
  | 0, _ => none
  | fuel + 1, i =>
    let random_email := words i ++ "@" ++ domain
    if taken random_email then generate_email_fuel taken words domain fuel (i + 1)
    else some random_email

/-- `generate_oauth_client_id` of app/models.py, with its effects made
explicit: `taken` embeds `Client.get_by(oauth_client_id=...)`, `cid_of`
embeds `convert_to_id` and `rand` the successive draws of
`random_string()` (app.utils, outside src).  As in `generate_email`,
the source recurses on a collision with no cap; `none` means it is
still recursing after `fuel` draws. -/
def generate_oauth_client_id_fuel (taken : String → Bool)
    (cid_of : String → String) (rand : Nat → String)
    (client_name : String) : Nat → Nat → Option String
  | 0, _ => none
  | fuel + 1, i =>
    let oauth_client_id := cid_of client_name ++ "-" ++ rand i
    if taken oauth_client_id then
      generate_oauth_client_id_fuel taken cid_of rand client_name fuel (i + 1)
    else some oauth_client_id

/-- OAuth-style errors of the token issuer (spec section 4.5 / 7). -/
inductive GrantError where
  | InvalidGrant
  | ExpiredGrant
  | UnauthorizedClient
deriving DecidableEq, Repr

/-- An authorization-code row (`AuthorizationCode` of app/models.py)
plus the absolute expiry the spec gives it. -/
structure AuthCodeRow where
  code : String
  client_id : Nat
  user_id : Nat
  scope : String
  redirect_uri : String
  expires : Int
deriving DecidableEq, Repr

/-- An access-token row (`OauthToken` of app/models.py). -/
structure TokenRow where
  access_token : String
  client_id : Nat
  user_id : Nat
  scope : String
  redirect_uri : String
deriving DecidableEq, Repr

/-- The store the token issuer acts on: known client ids, live
authorization codes, issued tokens. -/
structure OauthState where
  clients : List Nat
  codes : List AuthCodeRow
  tokens : List TokenRow
deriving DecidableEq, Repr

/-- Modelled from the spec: the code-exchange endpoint of section 4.5 is
not under src/ (src only declares the `AuthorizationCode` and
`OauthToken` rows).  An unknown client fails with `UnauthorizedClient`;
a missing (consumed) code or a client or redirect-uri mismatch fails
with `InvalidGrant`; a code past its expiry fails with `ExpiredGrant`;
otherwise a token with the code scope is issued and the code row is
removed in the same transition.  `fresh_token` is the random token
string drawn for this exchange. -/
def exchange (st : OauthState) (now : Int) (code : String)
    (client_id : Nat) (redirect_uri : String) (fresh_token : String) :
    Except GrantError (TokenRow × OauthState) :=
  if client_id ∈ st.clients then
    match st.codes.find? (fun c => c.code == code) with
    | none => .error .InvalidGrant
    | some c =>
      if c.client_id ≠ client_id then .error .InvalidGrant
      else if c.expires < now then .error .ExpiredGrant
      else if c.redirect_uri ≠ redirect_uri then .error .InvalidGrant
      else
        let tok : TokenRow :=
          ⟨fresh_token, client_id, c.user_id, c.scope, redirect_uri⟩
        .ok (tok, { st with
                      codes := st.codes.filter (fun c₀ => c₀.code ≠ code),
                      tokens := tok :: st.tokens })
  else .error .UnauthorizedClient

/-- A consent-binding row as stored: the two foreign keys of the
`uq_client_user` unique constraint and the row id. -/
structure ClientUserRow where
  id : Nat
  client_id : Nat
  user_id : Nat
deriving DecidableEq, Repr

/-- The `ClientUser` table: its rows and the autoincrement counter. -/
structure CUStore where
  rows : List ClientUserRow
  next_id : Nat
deriving DecidableEq, Repr

/-- `ClientUser.get_by(client_id=..., user_id=...)` of app/models.py:
the first row matching both keys. -/
def cu_get_by (client_id user_id : Nat) (rows : List ClientUserRow) :
    Option ClientUserRow :=
  rows.find? (fun r => r.client_id == client_id && r.user_id == user_id)

/-- `ModelMixin.get_or_create` of app/models.py instantiated at
`ClientUser`: return the existing row for the pair, else create one
(the session add becomes an append and the autoincrement assignment). -/
def cu_get_or_create (client_id user_id : Nat) (st : CUStore) :
    ClientUserRow × CUStore :=
  match cu_get_by client_id user_id st.rows with
  | some r => (r, st)
  | none =>
    let r : ClientUserRow := ⟨st.next_id, client_id, user_id⟩
    (r, ⟨st.rows ++ [r], st.next_id + 1⟩)

/-- States of the `ClientUser` table reachable from the empty table when
every row is created through `cu_get_or_create` (the source creates
bindings only through `get_or_create`). -/
inductive CUReachable : CUStore → Prop where
  | init : CUReachable ⟨[], 1⟩
  | step (st : CUStore) (client_id user_id : Nat) :
      CUReachable st → CUReachable (cu_get_or_create client_id user_id st).2

/-- At most one binding row per (client_id, user_id) pair. -/
def pair_unique (rows : List ClientUserRow) : Prop :=
  rows.Pairwise
    (fun a b => ¬(a.client_id = b.client_id ∧ a.user_id = b.user_id))

/-- Modelled from the spec: the operations that create or change the
plan of a user are not under src/ (src gives the column defaults:
`plan = free`, `plan_expiration` null).  The spec lifecycle gives
registration at the free plan, a trial start carrying an expiration,
an upgrade to a paid plan, and a downgrade to free; `save_promo` covers
the one user update present in src. -/
inductive UserOp where
  | start_trial (expire : Int)
  | upgrade_monthly
  | upgrade_yearly
  | downgrade_free
  | save_promo (promo_code : String)

/-- Effect of each user operation on the user row: plan changes keep
`plan_expiration` set exactly on the trial plan. -/
def apply_op : UserOp → User → User
  | .start_trial e, u => { u with plan := .trial, plan_expiration := some e }
  | .upgrade_monthly, u => { u with plan := .monthly, plan_expiration := none }
  | .upgrade_yearly, u => { u with plan := .yearly, plan_expiration := none }
  | .downgrade_free, u => { u with plan := .free, plan_expiration := none }
  | .save_promo c, u => u.save_new_promo_code c

/-- Users reachable from registration (the column defaults of src:
free plan, null expiration) through the modelled operations. -/
inductive UserReachable : User → Prop where
  | register (id : Nat) (email name : String) :
      UserReachable ⟨id, email, name, .free, none, none, none⟩
  | step (u : User) (op : UserOp) :
      UserReachable u → UserReachable (apply_op op u)

theorem dlookup_dinsert_self (k : String) (v : JValue) (d : Dict) :
    dlookup k (dinsert k v d) = some v := by
  induction d with
  | nil => simp [dinsert, dlookup]
  | cons p rest ih =>
    obtain ⟨k₀, v₀⟩ := p
    by_cases h : k₀ = k <;> simp [dinsert, dlookup, h, ih]

theorem dlookup_dinsert_ne {k₀ k : String} (v : JValue) (d : Dict)
    (h : k₀ ≠ k) : dlookup k (dinsert k₀ v d) = dlookup k d := by
  induction d with
  | nil => simp [dinsert, dlookup, h]
  | cons p rest ih =>
    obtain ⟨k₁, v₁⟩ := p
    by_cases h₁ : k₁ = k₀
    · subst h₁
      simp [dinsert, dlookup, h]
    · by_cases h₂ : k₁ = k
      · subst h₂
        simp [dinsert, dlookup, h₁]
      · simp [dinsert, dlookup, h₁, h₂, ih]

theorem user_info_step_val (s3url : String → String) (cu : ClientUser)
    (res : Dict) (s : Scope) :
    user_info_step s3url cu res s = dinsert s.value (scope_val s3url cu s) res := by
  cases s with
  | NAME => rfl
  | AVATAR_URL =>
    cases h : cu.user.profile_picture <;>
      simp [user_info_step, scope_val, h]
  | EMAIL =>
    cases h : cu.gen_email <;>
      simp [user_info_step, scope_val, ClientUser.get_email, h]

theorem scope_value_injective (s t : Scope) (h : s.value = t.value) :
    s = t := by
  cases s <;> cases t <;> first | rfl | simp [Scope.value] at h

theorem foldl_step_preserve (s3url : String → String) (cu : ClientUser)
    (k : String) (scopes : List Scope) (res : Dict)
    (h : ∀ t ∈ scopes, t.value ≠ k) :
    dlookup k (scopes.foldl (user_info_step s3url cu) res) = dlookup k res := by
  induction scopes generalizing res with
  | nil => rfl
  | cons s rest ih =>
    rw [List.foldl_cons, ih _ (fun t ht => h t (List.mem_cons_of_mem _ ht)),
        user_info_step_val, dlookup_dinsert_ne _ _ (h s (List.mem_cons_self _ _))]

theorem foldl_keep_target (s3url : String → String) (cu : ClientUser)
    (s : Scope) (scopes : List Scope) (res : Dict)
    (h : dlookup s.value res = some (scope_val s3url cu s)) :
    dlookup s.value (scopes.foldl (user_info_step s3url cu) res) =
      some (scope_val s3url cu s) := by
  induction scopes generalizing res with
  | nil => exact h
  | cons t rest ih =>
    rw [List.foldl_cons]
    apply ih
    by_cases hts : t.value = s.value
    · obtain rfl := scope_value_injective t s hts
      rw [user_info_step_val, dlookup_dinsert_self]
    · rw [user_info_step_val, dlookup_dinsert_ne _ _ hts]
      exact h

theorem foldl_mem_target (s3url : String → String) (cu : ClientUser)
    (s : Scope) (scopes : List Scope) (res : Dict) (hs : s ∈ scopes) :
    dlookup s.value (scopes.foldl (user_info_step s3url cu) res) =
      some (scope_val s3url cu s) := by
  induction scopes generalizing res with
  | nil => cases hs
  | cons t rest ih =>
    rw [List.foldl_cons]
    rcases List.mem_cons.1 hs with rfl | hmem
    · apply foldl_keep_target
      rw [user_info_step_val, dlookup_dinsert_self]
    · exact ih _ hmem

/-- C2: the projected user info always binds `id`, `client` and
`email_verified = true`; each granted scope adds its own key (`name`
the display name, `avatar_url` the picture URL or an explicit null,
`email` the alias when the binding carries one and the real email
otherwise); the key of a scope outside the granted set is absent; and
on the granted set {name, email} with an alias the result is exactly
the five-key dict with no `avatar_url`. -/
theorem get_user_info_spec (s3url : String → String) (cu : ClientUser)
    (scopes : List Scope) :
    dlookup "id" (get_user_info_scopes s3url cu scopes) = some (.jnum cu.id) ∧
    dlookup "client" (get_user_info_scopes s3url cu scopes) =
      some (.jstr cu.client.name) ∧
    dlookup "email_verified" (get_user_info_scopes s3url cu scopes) =
      some (.jbool true) ∧
    (Scope.NAME ∈ scopes →
      dlookup "name" (get_user_info_scopes s3url cu scopes) =
        some (.jstr cu.user.name)) ∧
    (Scope.AVATAR_URL ∈ scopes → ∀ f, cu.user.profile_picture = some f →
      dlookup "avatar_url" (get_user_info_scopes s3url cu scopes) =
        some (.jstr (s3url f.path))) ∧
    (Scope.AVATAR_URL ∈ scopes → cu.user.profile_picture = none →
      dlookup "avatar_url" (get_user_info_scopes s3url cu scopes) =
        some .jnull) ∧
    (Scope.EMAIL ∈ scopes → ∀ g, cu.gen_email = some g →
      dlookup "email" (get_user_info_scopes s3url cu scopes) =
        some (.jstr g.email)) ∧
    (Scope.EMAIL ∈ scopes → cu.gen_email = none →
      dlookup "email" (get_user_info_scopes s3url cu scopes) =
        some (.jstr cu.user.email)) ∧
    (∀ s : Scope, s ∉ scopes →
      dlookup s.value (get_user_info_scopes s3url cu scopes) = none) ∧
    (∀ g, cu.gen_email = some g →
      get_user_info_scopes s3url cu [Scope.NAME, Scope.EMAIL] =
        [("id", .jnum cu.id), ("client", .jstr cu.client.name),
         ("email_verified", .jbool true), ("name", .jstr cu.user.name),
         ("email", .jstr g.email)]) := by
  refine ⟨?_, ?_, ?_, ?_, ?_, ?_, ?_, ?_, ?_, ?_⟩
  · rw [get_user_info_scopes,
      foldl_step_preserve _ _ _ _ _ (fun t _ => by cases t <;> simp [Scope.value])]
    rfl
  · rw [get_user_info_scopes,
      foldl_step_preserve _ _ _ _ _ (fun t _ => by cases t <;> simp [Scope.value])]
    rfl
  · rw [get_user_info_scopes,
      foldl_step_preserve _ _ _ _ _ (fun t _ => by cases t <;> simp [Scope.value])]
    rfl
  · intro hmem
    exact foldl_mem_target s3url cu .NAME scopes _ hmem
  · intro hmem f hf
    have h₀ := foldl_mem_target s3url cu .AVATAR_URL scopes
      [("id", .jnum cu.id), ("client", .jstr cu.client.name),
       ("email_verified", .jbool true)] hmem
    simp only [Scope.value] at h₀
    rw [get_user_info_scopes, h₀]
    simp [scope_val, hf]
  · intro hmem hf
    have h₀ := foldl_mem_target s3url cu .AVATAR_URL scopes
      [("id", .jnum cu.id), ("client", .jstr cu.client.name),
       ("email_verified", .jbool true)] hmem
    simp only [Scope.value] at h₀
    rw [get_user_info_scopes, h₀]
    simp [scope_val, hf]
  · intro hmem g hg
    have h₀ := foldl_mem_target s3url cu .EMAIL scopes
      [("id", .jnum cu.id), ("client", .jstr cu.client.name),
       ("email_verified", .jbool true)] hmem
    simp only [Scope.value] at h₀
    rw [get_user_info_scopes, h₀]
    simp [scope_val, ClientUser.get_email, hg]
  · intro hmem hg
    have h₀ := foldl_mem_target s3url cu .EMAIL scopes
      [("id", .jnum cu.id), ("client", .jstr cu.client.name),
       ("email_verified", .jbool true)] hmem
    simp only [Scope.value] at h₀
    rw [get_user_info_scopes, h₀]
    simp [scope_val, ClientUser.get_email, hg]
  · intro s hs
    rw [get_user_info_scopes,
      foldl_step_preserve _ _ _ _ _
        (fun t ht heq => hs (scope_value_injective t s heq ▸ ht))]
    cases s <;> rfl
  · intro g hg
    rw [get_user_info_scopes, List.foldl_cons, List.foldl_cons, List.foldl_nil,
      user_info_step_val, user_info_step_val]
    simp only [Scope.value, scope_val, ClientUser.get_email, hg]
    simp [dinsert]

/-- Witness for C2 at concrete inputs: the exact projection for a
binding with alias a1@domain and granted scopes {name, email}. -/
theorem get_user_info_spec_witness :
    get_user_info_scopes (fun p => p)
      ⟨5, ⟨1, "real@x.y", "Son GM", .free, none, none, none⟩,
       ⟨2, "demo-abc", "secret40", "Demo", 1, none⟩,
       some ⟨3, 1, "a1@domain", true⟩⟩
      [Scope.NAME, Scope.EMAIL] =
      [("id", .jnum 5), ("client", .jstr "Demo"),
       ("email_verified", .jbool true), ("name", .jstr "Son GM"),
       ("email", .jstr "a1@domain")] :=
  (get_user_info_spec (fun p => p) _ []).2.2.2.2.2.2.2.2.2 _ rfl

/-- C9: whenever the email scope is granted, the `email` key of
`get_user_info` carries exactly `get_email`: the alias address when the
binding references an alias, the user real email otherwise. -/
theorem get_email_agrees (s3url : String → String) (cu : ClientUser)
    (scopes : List Scope) (h : Scope.EMAIL ∈ scopes) :
    dlookup "email" (get_user_info_scopes s3url cu scopes) =
      some (.jstr cu.get_email) ∧
    (∀ g, cu.gen_email = some g → cu.get_email = g.email) ∧
    (cu.gen_email = none → cu.get_email = cu.user.email) := by
  refine ⟨?_, ?_, ?_⟩
  · exact foldl_mem_target s3url cu .EMAIL scopes _ h
  · intro g hg
    simp [ClientUser.get_email, hg]
  · intro hg
    simp [ClientUser.get_email, hg]

/-- Witness for C9 at a concrete binding with the full scope list the
source grants. -/
theorem get_email_agrees_witness :
    dlookup "email"
      (ClientUser.get_user_info (fun p => p)
        ⟨5, ⟨1, "real@x.y", "Son GM", .free, none, none, none⟩,
         ⟨2, "demo-abc", "secret40", "Demo", 1, none⟩,
         some ⟨3, 1, "a1@domain", true⟩⟩) =
      some (.jstr
        (ClientUser.get_email
          ⟨5, ⟨1, "real@x.y", "Son GM", .free, none, none, none⟩,
           ⟨2, "demo-abc", "secret40", "Demo", 1, none⟩,
           some ⟨3, 1, "a1@domain", true⟩⟩)) :=
  (get_email_agrees (fun p => p) _ (Client.get_scopes _) (by decide)).1

/-- C1: `can_create_new_email` grants creation unconditionally on the
monthly and yearly plans, grants it on an unexpired trial, and on the
free plan or an expired trial grants it exactly when the current alias
count is strictly below `MAX_NB_EMAIL_FREE_PLAN`; in particular a
free-plan user with `MAX_NB_EMAIL_FREE_PLAN - 1` aliases may create one
and with `MAX_NB_EMAIL_FREE_PLAN` aliases may not. -/
theorem can_create_new_email_spec (now : Int) (nb maxNb : Nat) (u : User) :
    ((u.plan = PlanEnum.monthly ∨ u.plan = PlanEnum.yearly) →
      u.can_create_new_email now nb maxNb = some true) ∧
    (∀ e, u.plan = PlanEnum.trial → u.plan_expiration = some e → now < e →
      u.can_create_new_email now nb maxNb = some true) ∧
    (u.plan = PlanEnum.free →
      u.can_create_new_email now nb maxNb = some (decide (nb < maxNb))) ∧
    (∀ e, u.plan = PlanEnum.trial → u.plan_expiration = some e → e ≤ now →
      u.can_create_new_email now nb maxNb = some (decide (nb < maxNb))) ∧
    (u.plan = PlanEnum.free → 1 ≤ maxNb → nb = maxNb - 1 →
      u.can_create_new_email now nb maxNb = some true) ∧
    (u.plan = PlanEnum.free → nb = maxNb →
      u.can_create_new_email now nb maxNb = some false) := by
  refine ⟨?_, ?_, ?_, ?_, ?_, ?_⟩
  · rintro (h | h) <;>
      simp [User.can_create_new_email, User.is_premium, h]
  · intro e hp he hlt
    simp [User.can_create_new_email, User.is_premium, hp, he, hlt]
  · intro hp
    simp [User.can_create_new_email, User.is_premium, hp]
  · intro e hp he hle
    simp [User.can_create_new_email, User.is_premium, hp, he, not_lt.2 hle]
  · intro hp h1 hnb
    have hlt : nb < maxNb := by omega
    simp [User.can_create_new_email, User.is_premium, hp, hlt]
  · intro hp hnb
    have hge : ¬nb < maxNb := by omega
    simp [User.can_create_new_email, User.is_premium, hp, hge]

/-- Witness for C1 at concrete inputs: a free-plan user with 9 of 10
allowed aliases may create one, with 10 of 10 may not. -/
theorem can_create_new_email_spec_witness :
    User.can_create_new_email 0 9 10 ⟨1, "a@b.c", "A", .free, none, none, none⟩
      = some true ∧
    User.can_create_new_email 0 10 10 ⟨1, "a@b.c", "A", .free, none, none, none⟩
      = some false :=
  ⟨(can_create_new_email_spec 0 9 10 _).2.2.2.2.1 rfl (by decide) rfl,
   (can_create_new_email_spec 0 10 10 _).2.2.2.2.2 rfl rfl⟩

/-- C3: `should_upgrade` is true on the free plan and on a trial
expiring strictly before now plus 7 days, and false on every other
plan; in particular a trial expiring 6 days from now prompts the
upgrade and one expiring 8 days from now does not. -/
theorem should_upgrade_spec (now : Int) (u : User) :
    (u.plan = PlanEnum.free → u.should_upgrade now = some true) ∧
    (∀ e, u.plan = PlanEnum.trial → u.plan_expiration = some e →
      e < now + 7 * day → u.should_upgrade now = some true) ∧
    (∀ e, u.plan = PlanEnum.trial → u.plan_expiration = some e →
      now + 7 * day ≤ e → u.should_upgrade now = some false) ∧
    ((u.plan = PlanEnum.monthly ∨ u.plan = PlanEnum.yearly) →
      u.should_upgrade now = some false) ∧
    (∀ e, u.plan = PlanEnum.trial → u.plan_expiration = some e →
      e = now + 6 * day → u.should_upgrade now = some true) ∧
    (∀ e, u.plan = PlanEnum.trial → u.plan_expiration = some e →
      e = now + 8 * day → u.should_upgrade now = some false) := by
  refine ⟨?_, ?_, ?_, ?_, ?_, ?_⟩
  · intro hp
    simp [User.should_upgrade, hp]
  · intro e hp he hlt
    simp [User.should_upgrade, hp, he, hlt]
  · intro e hp he hge
    simp [User.should_upgrade, hp, he, not_lt.2 hge]
  · rintro (h | h) <;> simp [User.should_upgrade, h]
  · intro e hp he h6
    have hlt : e < now + 7 * day := by simp [h6, day]
    simp [User.should_upgrade, hp, he, hlt]
  · intro e hp he h8
    have hge : ¬e < now + 7 * day := by simp [h8, day]
    simp [User.should_upgrade, hp, he, hge]

/-- Witness for C3 at concrete inputs: the trial boundaries at 6 and 8
days from now. -/
theorem should_upgrade_spec_witness :
    User.should_upgrade 0
      ⟨1, "a@b.c", "A", .trial, some (6 * day), none, none⟩ = some true ∧
    User.should_upgrade 0
      ⟨1, "a@b.c", "A", .trial, some (8 * day), none, none⟩ = some false :=
  ⟨(should_upgrade_spec 0 _).2.2.2.2.1 (6 * day) rfl rfl (by simp),
   (should_upgrade_spec 0 _).2.2.2.2.2 (8 * day) rfl rfl (by simp)⟩

/-- C8: without a stored image the URL resolution falls back to the
deterministic default: the gravatar URL over the md5 hex digest of the
user email, and the fixed static default icon for a client. -/
theorem default_url_fallbacks (s3url md5hex : String → String)
    (URL : String) (u : User) (c : Client) :
    (u.profile_picture = none →
      u.profile_picture_url s3url md5hex =
        "https://www.gravatar.com/avatar/" ++ md5hex u.email) ∧
    (c.icon = none →
      c.get_icon_url s3url URL = URL ++ "/static/default-icon.svg") := by
  constructor
  · intro h
    simp [User.profile_picture_url, h]
  · intro h
    simp [Client.get_icon_url, h]

/-- Witness for C8 at a concrete user and client without images. -/
theorem default_url_fallbacks_witness :
    User.profile_picture_url (fun p => p) (fun e => e ++ "#md5")
      ⟨1, "a@b.c", "A", .free, none, none, none⟩ =
      "https://www.gravatar.com/avatar/" ++ ("a@b.c" ++ "#md5") ∧
    Client.get_icon_url (fun p => p) "https://sl.local"
      ⟨2, "demo-abc", "secret40", "Demo", 1, none⟩ =
      "https://sl.local" ++ "/static/default-icon.svg" :=
  ⟨(default_url_fallbacks (fun p => p) (fun e => e ++ "#md5")
      "https://sl.local" ⟨1, "a@b.c", "A", .free, none, none, none⟩
      ⟨2, "demo-abc", "secret40", "Demo", 1, none⟩).1 rfl,
   (default_url_fallbacks (fun p => p) (fun e => e ++ "#md5")
      "https://sl.local" ⟨1, "a@b.c", "A", .free, none, none, none⟩
      ⟨2, "demo-abc", "secret40", "Demo", 1, none⟩).2 rfl⟩

/-- C5 counterexample: against an authority on which every candidate
collides, both generators are still retrying after 100 draws — well
past any cap of 10 — and return no error value at all, so the source
neither caps its retries nor signals GenerationExhausted. -/
theorem generate_unbounded_counterexample :
    generate_email_fuel (fun _ => true) (fun _ => "word") "sl.local" 100 0 =
      none ∧
    generate_oauth_client_id_fuel (fun _ => true) (fun s => s)
      (fun _ => "r") "app" 100 0 = none := by
  constructor <;> rfl

theorem generate_email_fuel_first (taken : String → Bool)
    (words : Nat → String) (domain : String) (i : Nat) :
    ∀ (s fuel : Nat),
      (∀ j < i, taken (words (s + j) ++ "@" ++ domain) = true) →
      taken (words (s + i) ++ "@" ++ domain) = false → i < fuel →
      generate_email_fuel taken words domain fuel s =
        some (words (s + i) ++ "@" ++ domain) := by
  induction i with
  | zero =>
    intro s fuel _ hfresh hfuel
    obtain ⟨fuel, rfl⟩ : ∃ f, fuel = f + 1 := ⟨fuel - 1, by omega⟩
    rw [Nat.add_zero] at hfresh
    simp [generate_email_fuel, hfresh]
  | succ k ih =>
    intro s fuel htaken hfresh hfuel
    obtain ⟨fuel, rfl⟩ : ∃ f, fuel = f + 1 := ⟨fuel - 1, by omega⟩
    have h₀ : taken (words s ++ "@" ++ domain) = true := by
      have := htaken 0 (by omega)
      rwa [Nat.add_zero] at this
    have hrec := ih (s + 1) fuel
      (fun j hj => by
        have := htaken (j + 1) (by omega)
        rwa [show s + (j + 1) = s + 1 + j by omega] at this)
      (by rwa [show s + 1 + k = s + (k + 1) by omega])
      (by omega)
    rw [show s + 1 + k = s + (k + 1) by omega] at hrec
    simp [generate_email_fuel, h₀, hrec]

theorem generate_oauth_client_id_fuel_first (taken : String → Bool)
    (cid_of : String → String) (rand : Nat → String)
    (client_name : String) (i : Nat) :
    ∀ (s fuel : Nat),
      (∀ j < i, taken (cid_of client_name ++ "-" ++ rand (s + j)) = true) →
      taken (cid_of client_name ++ "-" ++ rand (s + i)) = false → i < fuel →
      generate_oauth_client_id_fuel taken cid_of rand client_name fuel s =
        some (cid_of client_name ++ "-" ++ rand (s + i)) := by
  induction i with
  | zero =>
    intro s fuel _ hfresh hfuel
    obtain ⟨fuel, rfl⟩ : ∃ f, fuel = f + 1 := ⟨fuel - 1, by omega⟩
    rw [Nat.add_zero] at hfresh
    simp [generate_oauth_client_id_fuel, hfresh]
  | succ k ih =>
    intro s fuel htaken hfresh hfuel
    obtain ⟨fuel, rfl⟩ : ∃ f, fuel = f + 1 := ⟨fuel - 1, by omega⟩
    have h₀ : taken (cid_of client_name ++ "-" ++ rand s) = true := by
      have := htaken 0 (by omega)
      rwa [Nat.add_zero] at this
    have hrec := ih (s + 1) fuel
      (fun j hj => by
        have := htaken (j + 1) (by omega)
        rwa [show s + (j + 1) = s + 1 + j by omega] at this)
      (by rwa [show s + 1 + k = s + (k + 1) by omega])
      (by omega)
    rw [show s + 1 + k = s + (k + 1) by omega] at hrec
    simp [generate_oauth_client_id_fuel, h₀, hrec]

/-- C5 amended: on a collision both generators regenerate with no retry
cap and no exhaustion error; each terminates exactly when a drawn
candidate is free, returning the first such candidate. -/
theorem generate_first_fresh (taken : String → Bool)
    (words : Nat → String) (domain : String)
    (cid_of : String → String) (rand : Nat → String)
    (client_name : String) (i s fuel : Nat) :
    ((∀ j < i, taken (words (s + j) ++ "@" ++ domain) = true) →
      taken (words (s + i) ++ "@" ++ domain) = false → i < fuel →
      generate_email_fuel taken words domain fuel s =
        some (words (s + i) ++ "@" ++ domain)) ∧
    ((∀ j < i, taken (cid_of client_name ++ "-" ++ rand (s + j)) = true) →
      taken (cid_of client_name ++ "-" ++ rand (s + i)) = false → i < fuel →
      generate_oauth_client_id_fuel taken cid_of rand client_name fuel s =
        some (cid_of client_name ++ "-" ++ rand (s + i))) :=
  ⟨generate_email_fuel_first taken words domain i s fuel,
   generate_oauth_client_id_fuel_first taken cid_of rand client_name i s fuel⟩

/-- Witness for the amended C5: one collision, then the second draw is
free and is returned. -/
theorem generate_first_fresh_witness :
    generate_email_fuel (fun e => e == "a@d")
      (fun n => if n == 0 then "a" else "b") "d" 5 0 = some "b@d" ∧
    generate_oauth_client_id_fuel (fun e => e == "app-r0") (fun s => s)
      (fun n => if n == 0 then "r0" else "r1") "app" 5 0 = some "app-r1" := by
  have h := generate_first_fresh (fun e => e == "a@d")
    (fun n => if n == 0 then "a" else "b") "d" (fun s => s)
    (fun n => if n == 0 then "r0" else "r1") "app" 1 0 5
  have h₂ := generate_first_fresh (fun e => e == "app-r0")
    (fun n => if n == 0 then "a" else "b") "d" (fun s => s)
    (fun n => if n == 0 then "r0" else "r1") "app" 1 0 5
  constructor
  · have := h.1
      (fun j hj => by
        have hj0 : j = 0 := by omega
        subst hj0
        decide)
      (by decide) (by decide)
    simpa using this
  · have := h₂.2
      (fun j hj => by
        have hj0 : j = 0 := by omega
        subst hj0
        decide)
      (by decide) (by decide)
    simpa using this

theorem find?_append_none {α : Type} (p : α → Bool) (l₁ l₂ : List α)
    (h : l₁.find? p = none) : (l₁ ++ l₂).find? p = l₂.find? p := by
  induction l₁ with
  | nil => rfl
  | cons a rest ih =>
    rw [List.find?_cons] at h
    rcases hpa : p a with _ | _
    · rw [hpa] at h
      rw [List.cons_append, List.find?_cons, hpa]
      exact ih h
    · rw [hpa] at h
      simp at h

/-- C6: every reachable state of the `ClientUser` table holds at most
one binding row per (client_id, user_id) pair, and a repeated
`get_or_create` for the same pair returns the very row the first call
returned, leaving the table unchanged. -/
theorem get_or_create_idempotent (st : CUStore) (client_id user_id : Nat)
    (hreach : CUReachable st) :
    pair_unique st.rows ∧
    cu_get_or_create client_id user_id
        (cu_get_or_create client_id user_id st).2 =
      ((cu_get_or_create client_id user_id st).1,
       (cu_get_or_create client_id user_id st).2) := by
  constructor
  · clear client_id user_id
    induction hreach with
    | init => exact List.Pairwise.nil
    | step st₀ cid uid h₀ ih =>
      rw [cu_get_or_create]
      cases hfind : cu_get_by cid uid st₀.rows with
      | some r => exact ih
      | none =>
        have hnone := List.find?_eq_none.1 hfind
        refine List.pairwise_append.2 ⟨ih, List.pairwise_singleton _ _, ?_⟩
        intro a ha b hb
        rw [List.mem_singleton] at hb
        subst hb
        have := hnone a ha
        simp only [Bool.and_eq_true, beq_iff_eq] at this
        intro hab
        exact this ⟨hab.1, hab.2⟩
  · cases hfind : cu_get_by client_id user_id st.rows with
    | some r =>
      simp [cu_get_or_create, hfind]
    | none =>
      have hby : cu_get_by client_id user_id
          (st.rows ++ [⟨st.next_id, client_id, user_id⟩]) =
          some ⟨st.next_id, client_id, user_id⟩ := by
        rw [cu_get_by, find?_append_none _ _ _ hfind]
        simp [List.find?_cons]
      simp [cu_get_or_create, hfind, hby]

/-- Witness for C6: from the empty table, create a binding for the pair
(2, 3), then call again; the same row comes back and nothing is added. -/
theorem get_or_create_idempotent_witness :
    pair_unique (cu_get_or_create 2 3 ⟨[], 1⟩).2.rows ∧
    cu_get_or_create 2 3 (cu_get_or_create 2 3 ⟨[], 1⟩).2 =
      ((cu_get_or_create 2 3 ⟨[], 1⟩).1, (cu_get_or_create 2 3 ⟨[], 1⟩).2) :=
  ⟨(get_or_create_idempotent _ 0 0
      (CUReachable.step ⟨[], 1⟩ 2 3 CUReachable.init)).1,
   (get_or_create_idempotent ⟨[], 1⟩ 2 3 CUReachable.init).2⟩

/-- C7: in every reachable user state, `plan_expiration` is set exactly
when the plan is trial; every modelled create or update operation
preserves this. -/
theorem plan_expiration_trial_inv (u : User) (h : UserReachable u) :
    u.plan_expiration.isSome = true ↔ u.plan = PlanEnum.trial := by
  induction h with
  | register id email name => simp
  | step u₀ op h₀ ih =>
    cases op <;> simp [apply_op, User.save_new_promo_code, ih]

/-- Witness for C7: a registered user upgraded to a trial and then to
the monthly plan satisfies the invariant at each stage. -/
theorem plan_expiration_trial_inv_witness :
    ((apply_op .upgrade_monthly
        (apply_op (.start_trial 5)
          (⟨1, "a@b.c", "A", .free, none, none, none⟩ : User))).plan_expiration.isSome
        = true ↔
      (apply_op .upgrade_monthly
        (apply_op (.start_trial 5)
          (⟨1, "a@b.c", "A", .free, none, none, none⟩ : User))).plan
        = PlanEnum.trial) :=
  plan_expiration_trial_inv _
    (UserReachable.step _ .upgrade_monthly
      (UserReachable.step _ (.start_trial 5)
        (UserReachable.register 1 "a@b.c" "A")))

theorem find?_code_filter (l : List AuthCodeRow) (code : String) :
    (l.filter (fun c₀ => c₀.code ≠ code)).find? (fun c => c.code == code) =
      none := by
  induction l with
  | nil => rfl
  | cons a rest ih =>
    by_cases ha : a.code = code
    · simp [List.filter_cons, ha, ih]
    · simp [List.filter_cons, ha, List.find?_cons, ih]

/-- C4: authorization codes are single-use: a successful exchange
removes the code row in the very transition that issues the token, so
any later exchange of the same code by a known client fails with
InvalidGrant and no second token value is returned. -/
theorem exchange_single_use (st : OauthState) (now now₂ : Int)
    (code : String) (client_id client_id₂ : Nat)
    (redirect_uri redirect_uri₂ tok_str tok_str₂ : String)
    (tok : TokenRow) (st₂ : OauthState)
    (h : exchange st now code client_id redirect_uri tok_str =
      .ok (tok, st₂)) :
    st₂.codes.find? (fun c => c.code == code) = none ∧
    tok ∈ st₂.tokens ∧
    (client_id₂ ∈ st₂.clients →
      exchange st₂ now₂ code client_id₂ redirect_uri₂ tok_str₂ =
        .error GrantError.InvalidGrant) := by
  unfold exchange at h
  by_cases hc : client_id ∈ st.clients
  · rw [if_pos hc] at h
    cases hfind : st.codes.find? (fun c => c.code == code) with
    | none =>
      rw [hfind] at h
      exact absurd h (by simp)
    | some c =>
      rw [hfind] at h
      simp only [] at h
      by_cases h₁ : c.client_id ≠ client_id
      · rw [if_pos h₁] at h
        exact absurd h (by simp)
      · rw [if_neg h₁] at h
        by_cases h₂ : c.expires < now
        · rw [if_pos h₂] at h
          exact absurd h (by simp)
        · rw [if_neg h₂] at h
          by_cases h₃ : c.redirect_uri ≠ redirect_uri
          · rw [if_pos h₃] at h
            exact absurd h (by simp)
          · rw [if_neg h₃] at h
            simp only [Except.ok.injEq, Prod.mk.injEq] at h
            obtain ⟨htok, hst⟩ := h
            subst hst
            refine ⟨?_, ?_, ?_⟩
            · exact find?_code_filter st.codes code
            · subst htok
              exact List.mem_cons_self _ _
            · intro hc₂
              unfold exchange
              rw [if_pos hc₂]
              have hnone : ({ st with
                  codes := st.codes.filter (fun c₀ => c₀.code ≠ code),
                  tokens := ⟨tok_str, client_id, c.user_id, c.scope,
                    redirect_uri⟩ :: st.tokens } :
                    OauthState).codes.find? (fun c => c.code == code) =
                  none := find?_code_filter st.codes code
              rw [hnone]
  · rw [if_neg hc] at h
    exact absurd h (by simp)

/-- Witness for C4 at a concrete store: one client, one live code; the
first exchange succeeds and consumes the code, the replay fails with
InvalidGrant. -/
theorem exchange_single_use_witness :
    (⟨[7], [], [⟨"tok1", 7, 1, "name email", "https://cb"⟩]⟩ :
        OauthState).codes.find? (fun c => c.code == "code1") = none ∧
    (⟨"tok1", 7, 1, "name email", "https://cb"⟩ : TokenRow) ∈
      (⟨[7], [], [⟨"tok1", 7, 1, "name email", "https://cb"⟩]⟩ :
        OauthState).tokens ∧
    ((7 : Nat) ∈ (⟨[7], [], [⟨"tok1", 7, 1, "name email", "https://cb"⟩]⟩ :
        OauthState).clients →
      exchange ⟨[7], [], [⟨"tok1", 7, 1, "name email", "https://cb"⟩]⟩
          5 "code1" 7 "https://cb" "tok2" =
        .error GrantError.InvalidGrant) := by
  have h : exchange
      ⟨[7], [⟨"code1", 7, 1, "name email", "https://cb", 100⟩], []⟩
      5 "code1" 7 "https://cb" "tok1" =
      .ok (⟨"tok1", 7, 1, "name email", "https://cb"⟩,
        ⟨[7], [], [⟨"tok1", 7, 1, "name email", "https://cb"⟩]⟩) := by
    rfl
  exact exchange_single_use _ 5 5 "code1" 7 7 "https://cb" "https://cb"
    "tok1" "tok2" _ _ h

theorem splitC_ne_nil (l : List Char) : splitC l ≠ [] := by
  induction l with
  | nil => simp [splitC]
  | cons c cs ih =>
    cases h : splitC cs with
    | nil => exact absurd h ih
    | cons hd tl =>
      simp only [splitC, h]
      by_cases hc : c = ',' <;> simp [hc]

theorem splitC_no_comma (l : List Char) : ∀ x ∈ splitC l, ',' ∉ x := by
  induction l with
  | nil =>
    intro x hx
    simp [splitC] at hx
    simp [hx]
  | cons c cs ih =>
    intro x hx
    cases hsp : splitC cs with
    | nil => exact absurd hsp (splitC_ne_nil cs)
    | cons hd tl =>
      simp only [splitC, hsp] at hx
      by_cases hc : c = ','
      · simp only [hc, if_pos rfl] at hx
        rcases List.mem_cons.1 hx with rfl | hx₀
        · simp
        · exact ih x (hsp ▸ hx₀)
      · simp only [if_neg hc] at hx
        rcases List.mem_cons.1 hx with rfl | hx₀
        · intro hmem
          rcases List.mem_cons.1 hmem with heq | hmem₀
          · exact hc heq.symm
          · exact ih hd (hsp ▸ List.mem_cons_self _ _) hmem₀
        · exact ih x (hsp ▸ List.mem_cons_of_mem _ hx₀)

theorem splitC_of_no_comma (x : List Char) (hx : ',' ∉ x) :
    splitC x = [x] := by
  induction x with
  | nil => rfl
  | cons c x₀ ih =>
    have hc : c ≠ ',' := fun h => hx (h ▸ List.mem_cons_self _ _)
    have hx₀ : ',' ∉ x₀ := fun h => hx (List.mem_cons_of_mem _ h)
    simp [splitC, ih hx₀, hc]

theorem splitC_append_comma (x rest : List Char) (hx : ',' ∉ x) :
    splitC (x ++ ',' :: rest) = x :: splitC rest := by
  induction x with
  | nil =>
    cases h : splitC rest with
    | nil => exact absurd h (splitC_ne_nil rest)
    | cons hd tl => simp [splitC, h]
  | cons c x₀ ih =>
    have hc : c ≠ ',' := fun h => hx (h ▸ List.mem_cons_self _ _)
    have hx₀ : ',' ∉ x₀ := fun h => hx (List.mem_cons_of_mem _ h)
    simp [splitC, ih hx₀, hc]

theorem joinC_eq_nil (y : List Char) (t : List (List Char))
    (h : joinC (y :: t) = []) : y = [] ∧ t = [] := by
  cases t with
  | nil => exact ⟨h, rfl⟩
  | cons z t₀ => simp [joinC] at h

theorem splitC_joinC (l : List (List Char)) (hne : l ≠ [])
    (hcf : ∀ x ∈ l, ',' ∉ x) : splitC (joinC l) = l := by
  induction l with
  | nil => exact absurd rfl hne
  | cons x t ih =>
    cases t with
    | nil =>
      simpa [joinC] using splitC_of_no_comma x (hcf x (List.mem_cons_self _ _))
    | cons y t₀ =>
      have hx : ',' ∉ x := hcf x (List.mem_cons_self _ _)
      have hrest : ∀ z ∈ y :: t₀, ',' ∉ z :=
        fun z hz => hcf z (List.mem_cons_of_mem _ hz)
      simp only [joinC]
      rw [splitC_append_comma x _ hx, ih (by simp) hrest]

theorem pc_split_join (l : List String) (hne : l ≠ [])
    (hcf : ∀ x ∈ l, ',' ∉ x.data) : pc_split (pc_join l) = l := by
  have hmk : ∀ s : String, String.mk s.data = s := fun s => rfl
  unfold pc_split pc_join
  rw [show (String.mk (joinC (l.map String.data))).data =
      joinC (l.map String.data) from rfl]
  rw [splitC_joinC _ (by simpa using hne)
    (by
      intro x hx
      obtain ⟨s, hs, rfl⟩ := List.mem_map.1 hx
      exact hcf s hs)]
  rw [List.map_map, show (String.mk ∘ String.data) = id from funext hmk,
    List.map_id]

theorem promo_codes_comma_free (u : User) :
    ∀ x ∈ u.get_promo_codes, ',' ∉ x.data := by
  intro x hx
  unfold User.get_promo_codes at hx
  cases hp : u.promo_codes with
  | none => simp [hp] at hx
  | some s =>
    rw [hp] at hx
    by_cases hs : s = ""
    · simp [hs] at hx
    · simp only [if_neg hs] at hx
      obtain ⟨z, hz, rfl⟩ := List.mem_map.1 hx
      exact splitC_no_comma s.data z hz

theorem pc_join_append_ne_empty (l : List String) (c : String)
    (hc : c ≠ "") : pc_join (l ++ [c]) ≠ "" := by
  cases l with
  | nil =>
    simpa [pc_join, joinC] using hc
  | cons o os =>
    intro h
    have hd : joinC (((o :: os) ++ [c]).map String.data) = [] :=
      congrArg String.data h
    cases hmap : (os ++ [c]).map String.data with
    | nil => simp at hmap
    | cons y t =>
      rw [List.cons_append, List.map_cons, hmap] at hd
      simp [joinC] at hd

/-- C10: a null or empty promo-code column reads back as the empty
list, and saving a non-empty comma-free promo code appends it to the
read-back list. -/
theorem promo_codes_roundtrip (u : User) (c : String) :
    (u.promo_codes = none → u.get_promo_codes = []) ∧
    (u.promo_codes = some "" → u.get_promo_codes = []) ∧
    (c ≠ "" → ',' ∉ c.data →
      (u.save_new_promo_code c).get_promo_codes =
        u.get_promo_codes ++ [c]) := by
  refine ⟨?_, ?_, ?_⟩
  · intro h
    simp [User.get_promo_codes, h]
  · intro h
    simp [User.get_promo_codes, h]
  · intro hc hcf
    have hne := pc_join_append_ne_empty u.get_promo_codes c hc
    have hsplit : pc_split (pc_join (u.get_promo_codes ++ [c])) =
        u.get_promo_codes ++ [c] := by
      refine pc_split_join _ (by simp) ?_
      intro x hx
      rcases List.mem_append.1 hx with hx₀ | hx₁
      · exact promo_codes_comma_free u x hx₀
      · rw [List.mem_singleton.1 hx₁]
        exact hcf
    show User.get_promo_codes
      { u with promo_codes := some (pc_join (u.get_promo_codes ++ [c])) } =
      u.get_promo_codes ++ [c]
    have hred : User.get_promo_codes
        { u with promo_codes := some (pc_join (u.get_promo_codes ++ [c])) } =
        if pc_join (u.get_promo_codes ++ [c]) = "" then []
        else pc_split (pc_join (u.get_promo_codes ++ [c])) := rfl
    rw [hred, if_neg hne, hsplit]

/-- Witness for C10: the stored string x,y with new code z reads back
as x, y, z. -/
theorem promo_codes_roundtrip_witness :
    (User.save_new_promo_code "z"
        ⟨1, "a@b.c", "A", .free, none, none, some "x,y"⟩).get_promo_codes =
      (⟨1, "a@b.c", "A", .free, none, none, some "x,y"⟩ :
        User).get_promo_codes ++ ["z"] :=
  (promo_codes_roundtrip ⟨1, "a@b.c", "A", .free, none, none, some "x,y"⟩
    "z").2.2 (by decide) (by decide)

end SimpleLogin
